import Mathlib

/-!
Shallow embedding of `src/fetch_data.py` (function `fetch_and_save_data`).

Timestamps are modelled as integers (UTC epoch seconds, or milliseconds for
raw API points); prices as rationals.  Python's floor division `//` is
`Int.fdiv`.  A UTC calendar date string `YYYY-MM-DD` obtained from
`datetime.fromtimestamp(ts, tz=timezone.utc).strftime` is in bijection with
the epoch-day number `ts // 86400`, so calendar dates are modelled as that
integer.  The current UTC date (`today_utc_str`) is a parameter `today`.
-/

/-- A stored or raw data entry: `[timestamp, price]`. -/
abbrev Entry := Int × ℚ

/-- UTC calendar date (as epoch-day number) of a timestamp in seconds;
models `datetime.fromtimestamp(ts, tz=timezone.utc).strftime('%Y-%m-%d')`. -/
def dateOf (ts : Int) : Int := Int.fdiv ts 86400

/-- `timestamp_sec = timestamp_ms // 1000` applied to a raw entry
(lines 99-101 of `fetch_data.py`): the entry as it would be appended. -/
def toSec (e : Entry) : Entry := (Int.fdiv e.1 1000, e.2)

/-- UTC date of a raw API entry (millisecond timestamp), line 104. -/
def rawKey (e : Entry) : Int := dateOf (Int.fdiv e.1 1000)

/-- UTC date of a stored entry (second timestamp), line 92. -/
def entryKey (e : Entry) : Int := dateOf e.1

/-- The merge loop of lines 98-117: processes raw entries in order, keeping
the accumulated data, the seen-dates set (modelled as a list with membership)
and the new-entry counter. -/
def mergeAux (today : Int) : List Entry → List Entry → List Int → Nat →
    List Entry × List Int × Nat
  | [], data, seen, n => (data, seen, n)
  | e :: rest, data, seen, n =>
    if rawKey e = today then
      mergeAux today rest data seen n
    else if rawKey e ∈ seen then
      mergeAux today rest data seen n
    else
      mergeAux today rest (data ++ [toSec e]) (rawKey e :: seen) (n + 1)

/-- The merge engine (lines 84-117): builds the seen-dates set from the
existing data (lines 88-93) and runs the loop over the raw points.
Returns (candidate data, final seen set, new-entry count). -/
def mergeEngine (existing raw : List Entry) (today : Int) :
    List Entry × List Int × Nat :=
  mergeAux today raw existing (existing.map entryKey) 0

/-- `existing_data.sort(key=lambda x: x[0])`, line 127: stable sort by
timestamp. -/
def sortByTs (l : List Entry) : List Entry :=
  l.mergeSort (fun a b => decide (a.1 ≤ b.1))

/-- Lines 119-133: the write decision.  Returns `some w` when the file is
rewritten with contents `w`, `none` when nothing is written (no new entries,
or the integrity check fails). -/
def mergeAndWrite (existing raw : List Entry) (today : Int) :
    Option (List Entry) :=
  let r := mergeEngine existing raw today
  if r.2.2 > 0 then
    if r.1.length < existing.length then none
    else some (sortByTs r.1)
  else none

/-- The fetch planner (lines 58-69).  `lastTs` is `last_timestamp_sec`,
`now` the current UTC time in epoch seconds; `(now - last).days` of a Python
`timedelta` is floor division of the difference by 86400. -/
def daysToFetch (lastTs now : Int) : Int :=
  if lastTs > 0 then
    let d := Int.fdiv (now - lastTs) 86400 + 2
    if d > 365 then 365 else d
  else 365

/-!
Store loader (lines 27-53).  The file content is modelled after `json.loads`:
`none` stands for text that fails to parse as JSON (raising
`json.JSONDecodeError`), `some j` for text parsing to the JSON value `j`.
-/

/-- A parsed JSON value, as produced by `json.loads`. -/
inductive Json where
  | null : Json
  | bool (b : Bool) : Json
  | num (q : ℚ) : Json
  | str (s : List Char) : Json
  | arr (xs : List Json) : Json
  | obj (kvs : List (List Char × Json)) : Json

/-- Python truthiness of a parsed JSON value (`if existing_data:`, line 39). -/
def Json.truthy : Json → Bool
  | .null => false
  | .bool b => b
  | .num q => decide (q ≠ 0)
  | .str s => !s.isEmpty
  | .arr xs => !xs.isEmpty
  | .obj kvs => !kvs.isEmpty

/-- A Python exception class raised by an indexing operation. -/
inductive PyErr where
  | typeError : PyErr
  | keyError : PyErr
  | indexError : PyErr

/-- Python `x[-1]` on a parsed JSON value (line 40).  JSON object keys are
strings, so `d[-1]` on a dict raises `KeyError`. -/
def pyLast : Json → Except PyErr Json
  | .arr xs =>
    match xs.getLast? with
    | some v => .ok v
    | none => .error .indexError
  | .str s =>
    match s.getLast? with
    | some c => .ok (.str [c])
    | none => .error .indexError
  | .obj _ => .error .keyError
  | _ => .error .typeError

/-- Python `x[0]` on a parsed JSON value (line 40). -/
def pyFirst : Json → Except PyErr Json
  | .arr xs =>
    match xs.head? with
    | some v => .ok v
    | none => .error .indexError
  | .str s =>
    match s.head? with
    | some c => .ok (.str [c])
    | none => .error .indexError
  | .obj _ => .error .keyError
  | _ => .error .typeError

/-- Whether `datetime.fromtimestamp(v, ...)` (line 41) accepts the value:
it requires an int or float (a `bool` is an `int` in Python). -/
def Json.numeric : Json → Bool
  | .num _ => true
  | .bool _ => true
  | _ => false

/-- Outcome of the load step, lines 29-53. -/
inductive LoadOutcome where
  /-- `json.JSONDecodeError` caught at line 45: abort, nothing else runs. -/
  | corruptStore : LoadOutcome
  /-- any other exception caught at line 49: abort, nothing else runs. -/
  | readError : LoadOutcome
  /-- load succeeded; the run continues with this data and
  `last_timestamp_sec` (line 40, or 0 when the data is falsy or the file
  is missing). -/
  | proceed (data : Json) (lastTs : Json) : LoadOutcome

/-- The store loader applied to an existing file's content (lines 29-51):
parse, then if the data is truthy take `existing_data[-1][0]` and format it
as a date (line 41, which raises on non-numeric values); every exception in
this block other than a JSON parse error is caught as a generic read error. -/
def loadStore : Option Json → LoadOutcome
  | none => .corruptStore
  | some j =>
    if j.truthy then
      match pyLast j with
      | .error _ => .readError
      | .ok last =>
        match pyFirst last with
        | .error _ => .readError
        | .ok v => if v.numeric then .proceed j v else .readError
    else .proceed j (.num 0)

/-- Whether the run reaches the network fetch (line 75).  After a successful
load the planner (lines 59-69) only does arithmetic on the numeric
`last_timestamp_sec`, so the fetch is attempted exactly when the loader
proceeds. -/
def fetchAttempted (content : Option Json) : Bool :=
  match loadStore content with
  | .proceed _ _ => true
  | _ => false

/-- The spec's expected storage format: a sequence of `[timestamp, price]`
pairs, both numbers.  (Stated from the spec's words; the code has no such
check.) -/
def isPricePair : Json → Bool
  | .arr [.num _, .num _] => true
  | _ => false

/-- The spec's "expected sequence-of-pairs format" for stored content. -/
def isSeqOfPairs : Json → Bool
  | .arr xs => xs.all isPricePair
  | _ => false

/-! ## Helper lemmas about the merge loop -/

theorem entryKey_toSec (e : Entry) : entryKey (toSec e) = rawKey e := rfl

/-- Characterization of the merge loop: it only appends to `data`; the
appended entries are converted raw points whose dates avoid the initial seen
set and `today` and are pairwise distinct; the counter counts exactly the
appended entries; membership in the final seen set is membership in the
initial one or in the appended dates; and every raw point's date is either
`today` or in the final seen set. -/
theorem mergeAux_spec (today : Int) (R : List Entry) :
    ∀ (data : List Entry) (seen : List Int) (n : Nat),
    ∃ t : List Entry,
      (mergeAux today R data seen n).1 = data ++ t ∧
      (mergeAux today R data seen n).2.2 = n + t.length ∧
      (∀ k : Int, k ∈ (mergeAux today R data seen n).2.1 ↔
        k ∈ seen ∨ k ∈ t.map entryKey) ∧
      (∀ x ∈ t, entryKey x ∉ seen ∧ entryKey x ≠ today) ∧
      (t.map entryKey).Nodup ∧
      (∀ x ∈ t, ∃ r ∈ R, x = toSec r) ∧
      (∀ r ∈ R, rawKey r = today ∨ rawKey r ∈ (mergeAux today R data seen n).2.1) := by
  induction R with
  | nil =>
    intro data seen n
    exact ⟨[], by simp [mergeAux], by simp [mergeAux], by simp [mergeAux],
      by simp, by simp, by simp, by simp⟩
  | cons e rest ih =>
    intro data seen n
    by_cases h1 : rawKey e = today
    · have step : mergeAux today (e :: rest) data seen n
          = mergeAux today rest data seen n := by
        simp [mergeAux, h1]
      obtain ⟨t, hd, hn, hiff, hfresh, hnd, hprov, hcov⟩ := ih data seen n
      rw [step]
      refine ⟨t, hd, hn, hiff, hfresh, hnd, ?_, ?_⟩
      · intro x hx
        obtain ⟨r, hr, hxr⟩ := hprov x hx
        exact ⟨r, List.mem_cons_of_mem _ hr, hxr⟩
      · intro r hr
        rcases List.mem_cons.mp hr with h | h
        · rw [h]; exact Or.inl h1
        · exact hcov r h
    · by_cases h2 : rawKey e ∈ seen
      · have step : mergeAux today (e :: rest) data seen n
            = mergeAux today rest data seen n := by
          simp [mergeAux, h1, h2]
        obtain ⟨t, hd, hn, hiff, hfresh, hnd, hprov, hcov⟩ := ih data seen n
        rw [step]
        refine ⟨t, hd, hn, hiff, hfresh, hnd, ?_, ?_⟩
        · intro x hx
          obtain ⟨r, hr, hxr⟩ := hprov x hx
          exact ⟨r, List.mem_cons_of_mem _ hr, hxr⟩
        · intro r hr
          rcases List.mem_cons.mp hr with h | h
          · rw [h]; exact Or.inr ((hiff _).mpr (Or.inl h2))
          · exact hcov r h
      · have step : mergeAux today (e :: rest) data seen n
            = mergeAux today rest (data ++ [toSec e]) (rawKey e :: seen) (n + 1) := by
          simp [mergeAux, h1, h2]
        obtain ⟨t, hd, hn, hiff, hfresh, hnd, hprov, hcov⟩ :=
          ih (data ++ [toSec e]) (rawKey e :: seen) (n + 1)
        rw [step]
        refine ⟨toSec e :: t, ?_, ?_, ?_, ?_, ?_, ?_, ?_⟩
        · rw [hd, List.append_assoc]; rfl
        · rw [hn]; simp only [List.length_cons]; omega
        · intro k
          rw [hiff k]
          simp only [List.mem_cons, List.map_cons, entryKey_toSec]
          tauto
        · intro x hx
          rcases List.mem_cons.mp hx with h | h
          · rw [h, entryKey_toSec]
            exact ⟨h2, h1⟩
          · obtain ⟨hs, ht⟩ := hfresh x h
            exact ⟨fun hmem => hs (List.mem_cons_of_mem _ hmem), ht⟩
        · rw [List.map_cons, List.nodup_cons]
          refine ⟨?_, hnd⟩
          rw [entryKey_toSec]
          intro hmem
          obtain ⟨x, hx, hkx⟩ := List.mem_map.mp hmem
          exact (hfresh x hx).1 (by rw [hkx]; exact List.mem_cons_self _ _)
        · intro x hx
          rcases List.mem_cons.mp hx with h | h
          · exact ⟨e, List.mem_cons_self _ _, h⟩
          · obtain ⟨r, hr, hxr⟩ := hprov x h
            exact ⟨r, List.mem_cons_of_mem _ hr, hxr⟩
        · intro r hr
          rcases List.mem_cons.mp hr with h | h
          · rw [h]
            exact Or.inr ((hiff _).mpr (Or.inl (List.mem_cons_self _ _)))
          · exact hcov r h

/-- If every raw point's date is `today` or already seen, the loop changes
nothing. -/
theorem mergeAux_all_skip (today : Int) (R : List Entry) :
    ∀ (data : List Entry) (seen : List Int) (n : Nat),
    (∀ e ∈ R, rawKey e = today ∨ rawKey e ∈ seen) →
    mergeAux today R data seen n = (data, seen, n) := by
  induction R with
  | nil => intro data seen n _; rfl
  | cons e rest ih =>
    intro data seen n h
    have step : mergeAux today (e :: rest) data seen n
        = mergeAux today rest data seen n := by
      rcases h e (List.mem_cons_self _ _) with h1 | h1
      · simp [mergeAux, h1]
      · by_cases h2 : rawKey e = today
        · simp [mergeAux, h2]
        · simp [mergeAux, h2, h1]
    rw [step]
    exact ih data seen n fun x hx => h x (List.mem_cons_of_mem _ hx)

/-- When the raw points have pairwise-distinct dates, the accepted entries
are exactly the raw points whose date is neither `today` nor initially
seen, in input order. -/
theorem mergeAux_fst_of_nodup (today : Int) (R : List Entry) :
    ∀ (data : List Entry) (seen : List Int) (n : Nat),
    (R.map rawKey).Nodup →
    (mergeAux today R data seen n).1 =
      data ++ (R.filter fun e =>
        decide (rawKey e ≠ today ∧ rawKey e ∉ seen)).map toSec := by
  induction R with
  | nil => intro data seen n _; simp [mergeAux]
  | cons e rest ih =>
    intro data seen n hnd
    rw [List.map_cons, List.nodup_cons] at hnd
    obtain ⟨hhead, htail⟩ := hnd
    by_cases h1 : rawKey e = today
    · have step : mergeAux today (e :: rest) data seen n
          = mergeAux today rest data seen n := by
        simp [mergeAux, h1]
      rw [step, ih data seen n htail, List.filter_cons]
      simp [h1]
    · by_cases h2 : rawKey e ∈ seen
      · have step : mergeAux today (e :: rest) data seen n
            = mergeAux today rest data seen n := by
          simp [mergeAux, h1, h2]
        rw [step, ih data seen n htail, List.filter_cons]
        simp [h1, h2]
      · have step : mergeAux today (e :: rest) data seen n
            = mergeAux today rest (data ++ [toSec e]) (rawKey e :: seen) (n + 1) := by
          simp [mergeAux, h1, h2]
        rw [step, ih _ _ _ htail, List.filter_cons]
        have hfc : rest.filter
              (fun x => decide (rawKey x ≠ today ∧ rawKey x ∉ rawKey e :: seen))
            = rest.filter (fun x => decide (rawKey x ≠ today ∧ rawKey x ∉ seen)) := by
          apply List.filter_congr
          intro x hx
          have hne : rawKey x ≠ rawKey e := by
            intro hEq
            exact hhead (hEq ▸ List.mem_map_of_mem rawKey hx)
          apply decide_eq_decide.mpr
          constructor
          · rintro ⟨ha, hb⟩
            exact ⟨ha, fun hmem => hb (List.mem_cons_of_mem _ hmem)⟩
          · rintro ⟨ha, hb⟩
            refine ⟨ha, ?_⟩
            intro hmem
            rcases List.mem_cons.mp hmem with h | h
            · exact hne h
            · exact hb h
        rw [hfc]
        simp [h1, h2, List.append_assoc]

/-! ## Helper lemmas about the sort step -/

theorem sortByTs_perm (l : List Entry) : List.Perm (sortByTs l) l :=
  List.mergeSort_perm l _

theorem sortByTs_pairwise (l : List Entry) :
    (sortByTs l).Pairwise fun a b : Entry => a.1 ≤ b.1 := by
  have h := @List.sorted_mergeSort Entry (fun a b : Entry => decide (a.1 ≤ b.1))
    (fun a b c hab hbc => by
      simp only [decide_eq_true_eq] at hab hbc ⊢
      omega)
    (fun a b => by
      simp only [Bool.or_eq_true, decide_eq_true_eq]
      omega) l
  exact h.imp fun hab => by simpa using hab

/-- Two permutations of one another with pairwise-distinct timestamps that
are both sorted by timestamp are equal. -/
theorem eq_of_perm_sorted_nodupTs (l₁ l₂ : List Entry) (hp : List.Perm l₁ l₂)
    (hs₁ : l₁.Pairwise fun a b : Entry => a.1 ≤ b.1)
    (hs₂ : l₂.Pairwise fun a b : Entry => a.1 ≤ b.1)
    (hnd : (l₁.map Prod.fst).Nodup) : l₁ = l₂ := by
  have hnd₂ : (l₂.map Prod.fst).Nodup := ((hp.map Prod.fst).nodup_iff).mp hnd
  have hne₁ : l₁.Pairwise fun a b : Entry => a.1 ≠ b.1 := List.pairwise_map.mp hnd
  have hne₂ : l₂.Pairwise fun a b : Entry => a.1 ≠ b.1 := List.pairwise_map.mp hnd₂
  have hlt₁ : l₁.Pairwise fun a b : Entry => a.1 < b.1 := by
    have := List.Pairwise.and hs₁ hne₁
    exact this.imp fun hab => lt_of_le_of_ne hab.1 hab.2
  have hlt₂ : l₂.Pairwise fun a b : Entry => a.1 < b.1 := by
    have := List.Pairwise.and hs₂ hne₂
    exact this.imp fun hab => lt_of_le_of_ne hab.1 hab.2
  haveI : IsAntisymm Entry fun a b : Entry => a.1 < b.1 :=
    ⟨fun a b h1 h2 => absurd (lt_trans h1 h2) (lt_irrefl _)⟩
  exact List.eq_of_perm_of_sorted hp hlt₁ hlt₂

/-- Running the loop on a concatenation is running it first on the left
part, then on the right part from the state reached. -/
theorem mergeAux_append (today : Int) (l1 l2 : List Entry) :
    ∀ (data : List Entry) (seen : List Int) (n : Nat),
    mergeAux today (l1 ++ l2) data seen n =
      mergeAux today l2 (mergeAux today l1 data seen n).1
        (mergeAux today l1 data seen n).2.1 (mergeAux today l1 data seen n).2.2 := by
  induction l1 with
  | nil => intro data seen n; rfl
  | cons x xs ih =>
    intro data seen n
    by_cases h1 : rawKey x = today
    · have s1 : mergeAux today (x :: xs) data seen n = mergeAux today xs data seen n := by
        simp [mergeAux, h1]
      have s2 : mergeAux today ((x :: xs) ++ l2) data seen n
          = mergeAux today (xs ++ l2) data seen n := by
        simp [mergeAux, h1]
      rw [s1, s2, ih]
    · by_cases h2 : rawKey x ∈ seen
      · have s1 : mergeAux today (x :: xs) data seen n = mergeAux today xs data seen n := by
          simp [mergeAux, h1, h2]
        have s2 : mergeAux today ((x :: xs) ++ l2) data seen n
            = mergeAux today (xs ++ l2) data seen n := by
          simp [mergeAux, h1, h2]
        rw [s1, s2, ih]
      · have s1 : mergeAux today (x :: xs) data seen n
            = mergeAux today xs (data ++ [toSec x]) (rawKey x :: seen) (n + 1) := by
          simp [mergeAux, h1, h2]
        have s2 : mergeAux today ((x :: xs) ++ l2) data seen n
            = mergeAux today (xs ++ l2) (data ++ [toSec x]) (rawKey x :: seen) (n + 1) := by
          simp [mergeAux, h1, h2]
        rw [s1, s2, ih]

/-! ## Claims -/

/-- C1: for every existing dataset and list of raw fetch points, the merge
only appends, so the candidate is never shorter than the original; in
particular the length check before the write never observes a length below
the original count. -/
theorem c1_merge_nonshrinkage (D R : List Entry) (today : Int) :
    D.length ≤ (mergeEngine D R today).1.length := by
  obtain ⟨t, hd, -, -, -, -, -, -⟩ := mergeAux_spec today R D (D.map entryKey) 0
  have hd' : (mergeEngine D R today).1 = D ++ t := hd
  rw [hd']
  simp

/-- C2 counterexample: the stored content `[[1700000000]]` is valid JSON but
is not a sequence of (timestamp, price) pairs; the loader nevertheless
proceeds (no CorruptStore abort) and the fetch is attempted. -/
theorem c2_counterexample :
    isSeqOfPairs (Json.arr [Json.arr [Json.num 1700000000]]) = false ∧
    loadStore (some (Json.arr [Json.arr [Json.num 1700000000]])) =
      LoadOutcome.proceed (Json.arr [Json.arr [Json.num 1700000000]])
        (Json.num 1700000000) ∧
    fetchAttempted (some (Json.arr [Json.arr [Json.num 1700000000]])) = true :=
  ⟨rfl, rfl, rfl⟩

/-- C2 (amended): stored content that fails to parse as JSON makes the
loader fail with the CorruptStore condition; the run aborts with no fetch
attempted (and hence no write, as the write happens after the fetch). -/
theorem c2_corrupt_store_aborts :
    loadStore none = LoadOutcome.corruptStore ∧ fetchAttempted none = false :=
  ⟨rfl, rfl⟩

/-- C3 counterexample: with a last-known timestamp ten days after the
current time, the planner returns -8, which is not in [1, 365]. -/
theorem c3_counterexample :
    daysToFetch 864000 0 = -8 ∧ ¬(1 ≤ daysToFetch 864000 0) :=
  ⟨by decide, by decide⟩

/-- C3 (amended): provided the last-known timestamp does not lie in the
future of the current time, the planner's day count is in [1, 365]. -/
theorem c3_days_in_range (lastTs now : Int) (h : lastTs ≤ now) :
    1 ≤ daysToFetch lastTs now ∧ daysToFetch lastTs now ≤ 365 := by
  have hq : 0 ≤ Int.fdiv (now - lastTs) 86400 :=
    Int.fdiv_nonneg (by omega) (by norm_num)
  unfold daysToFetch
  split
  · dsimp only
    split
    · omega
    · omega
  · omega

theorem c3_days_in_range_witness :
    1 ≤ daysToFetch 1 259200 ∧ daysToFetch 1 259200 ≤ 365 :=
  c3_days_in_range 1 259200 (by decide)

unseal List.merge List.mergeSort in
/-- C4 counterexample: an existing entry dated `today` (here day 2) survives
the merge and is even written out together with a new point: the today
filter only guards raw points, not the loaded dataset. -/
theorem c4_counterexample :
    (172800, (1:ℚ)) ∈ (mergeEngine [(172800, (1:ℚ))] [(0, (5:ℚ))] 2).1 ∧
    dateOf 172800 = 2 ∧
    mergeAndWrite [(172800, (1:ℚ))] [(0, (5:ℚ))] 2 =
      some [(0, (5:ℚ)), (172800, (1:ℚ))] :=
  ⟨by decide, by decide, by decide⟩

/-- C4 (amended): every entry appended by the merge has a date different
from today's, so if the existing dataset has no entry dated today, neither
the candidate nor its sorted form has one. -/
theorem c4_no_partial_day (D R : List Entry) (today : Int)
    (h : ∀ x ∈ D, entryKey x ≠ today) :
    (∀ x ∈ (mergeEngine D R today).1, entryKey x ≠ today) ∧
    (∀ x ∈ sortByTs (mergeEngine D R today).1, entryKey x ≠ today) := by
  obtain ⟨t, hd, -, -, hfresh, -, -, -⟩ := mergeAux_spec today R D (D.map entryKey) 0
  have hd' : (mergeEngine D R today).1 = D ++ t := hd
  have hcand : ∀ x ∈ (mergeEngine D R today).1, entryKey x ≠ today := by
    rw [hd']
    intro x hx
    rcases List.mem_append.mp hx with h1 | h1
    · exact h x h1
    · exact (hfresh x h1).2
  refine ⟨hcand, ?_⟩
  intro x hx
  exact hcand x ((sortByTs_perm _).subset hx)

theorem c4_no_partial_day_witness :
    entryKey (0, (1:ℚ)) ≠ 5 :=
  (c4_no_partial_day [(0, (1:ℚ))] [(432000000, (2:ℚ))] 5 (by decide)).1
    (0, (1:ℚ)) (by decide)

unseal List.merge List.mergeSort in
/-- C5 counterexample: two raw points sharing one new UTC date make the
merge order-sensitive: the two input orders keep different points, so the
sorted results differ. -/
theorem c5_counterexample :
    List.Perm [((1000:Int), (2:ℚ)), (0, 1)] [((0:Int), (1:ℚ)), (1000, 2)] ∧
    sortByTs (mergeEngine [] [((1000:Int), (2:ℚ)), (0, 1)] 5).1 ≠
      sortByTs (mergeEngine [] [((0:Int), (1:ℚ)), (1000, 2)] 5).1 :=
  ⟨List.Perm.swap _ _ _, by decide⟩

/-- C5 (amended): provided the existing dataset has pairwise-distinct dates
and the raw points have pairwise-distinct dates, merging with any
permutation of the raw list yields the same sorted candidate dataset. -/
theorem c5_merge_perm_invariant (D R R2 : List Entry) (today : Int)
    (hD : (D.map entryKey).Nodup) (hR : (R.map rawKey).Nodup)
    (hperm : List.Perm R2 R) :
    sortByTs (mergeEngine D R2 today).1 = sortByTs (mergeEngine D R today).1 := by
  have hR2 : (R2.map rawKey).Nodup := ((hperm.map rawKey).nodup_iff).mpr hR
  have h1 : (mergeEngine D R today).1 = D ++ (R.filter fun e =>
      decide (rawKey e ≠ today ∧ rawKey e ∉ D.map entryKey)).map toSec :=
    mergeAux_fst_of_nodup today R D (D.map entryKey) 0 hR
  have h2 : (mergeEngine D R2 today).1 = D ++ (R2.filter fun e =>
      decide (rawKey e ≠ today ∧ rawKey e ∉ D.map entryKey)).map toSec :=
    mergeAux_fst_of_nodup today R2 D (D.map entryKey) 0 hR2
  have hcand : List.Perm (mergeEngine D R2 today).1 (mergeEngine D R today).1 := by
    rw [h1, h2]
    exact ((hperm.filter _).map toSec).append_left D
  have hnodup : ((mergeEngine D R today).1.map entryKey).Nodup := by
    obtain ⟨t, hd, -, -, hfresh, hnd, -, -⟩ := mergeAux_spec today R D (D.map entryKey) 0
    have hd' : (mergeEngine D R today).1 = D ++ t := hd
    rw [hd', List.map_append]
    refine List.Nodup.append hD hnd ?_
    intro a haD hat
    obtain ⟨x, hx, hkx⟩ := List.mem_map.mp hat
    exact (hfresh x hx).1 (by rw [hkx]; exact haD)
  have hts : ((mergeEngine D R today).1.map Prod.fst).Nodup := by
    refine List.Nodup.of_map dateOf ?_
    rw [List.map_map]
    exact hnodup
  have htssort : ((sortByTs (mergeEngine D R2 today).1).map Prod.fst).Nodup := by
    refine (((sortByTs_perm _).trans hcand).map Prod.fst).nodup_iff.mpr hts
  exact eq_of_perm_sorted_nodupTs _ _
    (((sortByTs_perm _).trans hcand).trans (sortByTs_perm _).symm)
    (sortByTs_pairwise _) (sortByTs_pairwise _) htssort

theorem c5_merge_perm_invariant_witness :
    sortByTs (mergeEngine [((86400:Int), (3:ℚ))] [((172800000:Int), (2:ℚ)), (0, 1)] 9).1 =
      sortByTs (mergeEngine [((86400:Int), (3:ℚ))] [((0:Int), (1:ℚ)), (172800000, 2)] 9).1 :=
  c5_merge_perm_invariant [((86400:Int), (3:ℚ))] [((0:Int), (1:ℚ)), (172800000, 2)]
    [((172800000:Int), (2:ℚ)), (0, 1)] 9 (by decide) (by decide) (List.Perm.swap _ _ _)

/-- C6: for a date `d` already present in the dataset, the merge leaves the
stored entries untouched (the candidate extends the dataset verbatim) and
never appends an entry dated `d`: incoming points for `d` are skipped and
not counted, and the counter counts exactly the appended entries. -/
theorem c6_no_overwrite (D R : List Entry) (today : Int) (d : Int)
    (hd : d ∈ D.map entryKey) :
    ∃ t : List Entry,
      (mergeEngine D R today).1 = D ++ t ∧
      (mergeEngine D R today).2.2 = t.length ∧
      ∀ x ∈ t, entryKey x ≠ d := by
  obtain ⟨t, h1, h2, -, hfresh, -, -, -⟩ := mergeAux_spec today R D (D.map entryKey) 0
  refine ⟨t, h1, by simpa using h2, ?_⟩
  intro x hx heq
  exact (hfresh x hx).1 (by rw [heq]; exact hd)

theorem c6_no_overwrite_witness :
    (mergeEngine [(1700000000, mkRat 19 2)] [(1700000000000, mkRat 99 10)] 0).1 =
      [(1700000000, mkRat 19 2)] ∧
    (mergeEngine [(1700000000, mkRat 19 2)] [(1700000000000, mkRat 99 10)] 0).2.2 = 0 := by
  obtain ⟨t, h1, h2, h3⟩ := c6_no_overwrite [(1700000000, mkRat 19 2)]
    [(1700000000000, mkRat 99 10)] 0 19675 (by decide)
  have hc : (mergeEngine [(1700000000, mkRat 19 2)]
      [(1700000000000, mkRat 99 10)] 0).2.2 = 0 := by decide
  rw [hc] at h2
  have ht : t = [] := List.length_eq_zero.mp h2.symm
  rw [ht, List.append_nil] at h1
  exact ⟨h1, hc⟩

unseal List.merge List.mergeSort in
/-- C7 counterexample: a loaded dataset with two entries on one UTC date
(day 0) is merged with a fresh point and written out still containing both,
so the written file does not always have one entry per date. -/
theorem c7_counterexample :
    mergeAndWrite [(0, (1:ℚ)), (1, 2)] [(86400000, 3)] 9 =
      some [(0, (1:ℚ)), (1, 2), (86400, 3)] ∧
    ¬(([(0, (1:ℚ)), (1, 2), (86400, 3)] : List Entry).map entryKey).Nodup :=
  ⟨by decide, by decide⟩

/-- C7 (amended): if the loaded dataset has at most one entry per UTC date,
then so do the merge candidate and any written file. -/
theorem c7_one_per_date (D R : List Entry) (today : Int)
    (hD : (D.map entryKey).Nodup) :
    ((mergeEngine D R today).1.map entryKey).Nodup ∧
    ∀ w, mergeAndWrite D R today = some w → (w.map entryKey).Nodup := by
  obtain ⟨t, hd, -, -, hfresh, hnd, -, -⟩ := mergeAux_spec today R D (D.map entryKey) 0
  have hd' : (mergeEngine D R today).1 = D ++ t := hd
  have hcand : ((mergeEngine D R today).1.map entryKey).Nodup := by
    rw [hd', List.map_append]
    refine List.Nodup.append hD hnd ?_
    intro a haD hat
    obtain ⟨x, hx, hkx⟩ := List.mem_map.mp hat
    exact (hfresh x hx).1 (by rw [hkx]; exact haD)
  refine ⟨hcand, ?_⟩
  intro w hw
  simp only [mergeAndWrite] at hw
  split at hw
  · split at hw
    · exact absurd hw (by simp)
    · have hws : w = sortByTs (mergeEngine D R today).1 := (Option.some.inj hw).symm
      rw [hws]
      exact (((sortByTs_perm _).map entryKey).nodup_iff).mpr hcand
  · exact absurd hw (by simp)

theorem c7_one_per_date_witness :
    ((mergeEngine [(0, (1:ℚ))] [(86400000, (2:ℚ))] 9).1.map entryKey).Nodup :=
  (c7_one_per_date [(0, (1:ℚ))] [(86400000, (2:ℚ))] 9 (by decide)).1

/-- C8: the candidate produced by a run extends the loaded dataset verbatim
(entries are only appended), and after the final sort every loaded entry is
still present: the old dataset is a sub-permutation of the sorted
candidate. -/
theorem c8_superset (D R : List Entry) (today : Int) :
    ∃ t : List Entry,
      (mergeEngine D R today).1 = D ++ t ∧
      List.Subperm D (sortByTs (mergeEngine D R today).1) := by
  obtain ⟨t, hd, -, -, -, -, -, -⟩ := mergeAux_spec today R D (D.map entryKey) 0
  have hd' : (mergeEngine D R today).1 = D ++ t := hd
  refine ⟨t, hd', ?_⟩
  have h1 : List.Subperm D (D ++ t) := (List.sublist_append_left D t).subperm
  have h2 : List.Perm (D ++ t) (sortByTs (mergeEngine D R today).1) := by
    rw [hd']
    exact (sortByTs_perm _).symm
  exact h1.trans h2.subperm

/-- C9: running the merge a second time on the (sorted) result of merging
D with R, with the same R and the same today, yields zero new entries, so
the second run performs no write. -/
theorem c9_second_run_no_write (D R : List Entry) (today : Int) :
    (mergeEngine (sortByTs (mergeEngine D R today).1) R today).2.2 = 0 ∧
    mergeAndWrite (sortByTs (mergeEngine D R today).1) R today = none := by
  obtain ⟨t, hd, -, hiff, -, -, -, hcov⟩ := mergeAux_spec today R D (D.map entryKey) 0
  have hd' : (mergeEngine D R today).1 = D ++ t := hd
  have hcover : ∀ e ∈ R, rawKey e = today ∨
      rawKey e ∈ (sortByTs (mergeEngine D R today).1).map entryKey := by
    intro e he
    rcases hcov e he with h | h
    · exact Or.inl h
    · right
      refine ((sortByTs_perm _).map entryKey).mem_iff.mpr ?_
      rcases (hiff _).mp h with h1 | h1
      · rw [hd', List.map_append]
        exact List.mem_append_left _ h1
      · rw [hd', List.map_append]
        exact List.mem_append_right _ h1
  have hskip : mergeEngine (sortByTs (mergeEngine D R today).1) R today =
      (sortByTs (mergeEngine D R today).1,
       (sortByTs (mergeEngine D R today).1).map entryKey, 0) :=
    mergeAux_all_skip today R _ _ 0 hcover
  refine ⟨by rw [hskip], ?_⟩
  simp [mergeAndWrite, hskip]

/-- C10: when several raw points share one new UTC date (not already
stored, not today), exactly the first such point in input order is appended
and counted; all later points for that date are skipped, because the date
enters the seen set on acceptance. -/
theorem c10_first_point_wins (D R1 R2 : List Entry) (e : Entry) (today : Int)
    (h1 : rawKey e ≠ today) (h2 : rawKey e ∉ D.map entryKey)
    (h3 : ∀ x ∈ R1, rawKey x ≠ rawKey e) :
    ∃ t : List Entry,
      (mergeEngine D (R1 ++ e :: R2) today).1 = D ++ t ∧
      (mergeEngine D (R1 ++ e :: R2) today).2.2 = t.length ∧
      t.filter (fun x => decide (entryKey x = rawKey e)) = [toSec e] := by
  obtain ⟨t1, hd1, hn1, hiff1, hfresh1, hnd1, hprov1, -⟩ :=
    mergeAux_spec today R1 D (D.map entryKey) 0
  have hnotseen : rawKey e ∉ (mergeAux today R1 D (D.map entryKey) 0).2.1 := by
    intro hmem
    rcases (hiff1 _).mp hmem with h | h
    · exact h2 h
    · obtain ⟨x, hx, hkx⟩ := List.mem_map.mp h
      obtain ⟨r, hr, hxr⟩ := hprov1 x hx
      exact h3 r hr (by rw [← entryKey_toSec, ← hxr]; exact hkx)
  have happ := mergeAux_append today R1 (e :: R2) D (D.map entryKey) 0
  have hstep : mergeAux today (e :: R2) (mergeAux today R1 D (D.map entryKey) 0).1
      (mergeAux today R1 D (D.map entryKey) 0).2.1
      (mergeAux today R1 D (D.map entryKey) 0).2.2
      = mergeAux today R2
          ((mergeAux today R1 D (D.map entryKey) 0).1 ++ [toSec e])
          (rawKey e :: (mergeAux today R1 D (D.map entryKey) 0).2.1)
          ((mergeAux today R1 D (D.map entryKey) 0).2.2 + 1) := by
    simp [mergeAux, h1, hnotseen]
  obtain ⟨t3, hd3, hn3, -, hfresh3, -, -, -⟩ :=
    mergeAux_spec today R2
      ((mergeAux today R1 D (D.map entryKey) 0).1 ++ [toSec e])
      (rawKey e :: (mergeAux today R1 D (D.map entryKey) 0).2.1)
      ((mergeAux today R1 D (D.map entryKey) 0).2.2 + 1)
  refine ⟨t1 ++ toSec e :: t3, ?_, ?_, ?_⟩
  · show (mergeAux today (R1 ++ e :: R2) D (D.map entryKey) 0).1 = _
    rw [happ, hstep, hd3, hd1]
    simp [List.append_assoc]
  · show (mergeAux today (R1 ++ e :: R2) D (D.map entryKey) 0).2.2 = _
    rw [happ, hstep, hn3, hn1]
    simp [List.length_append]
    omega
  · rw [List.filter_append, List.filter_cons]
    have hf1 : t1.filter (fun x => decide (entryKey x = rawKey e)) = [] := by
      rw [List.filter_eq_nil_iff]
      intro x hx
      simp only [decide_eq_true_eq]
      intro hkx
      obtain ⟨r, hr, hxr⟩ := hprov1 x hx
      exact h3 r hr (by rw [← entryKey_toSec, ← hxr]; exact hkx)
    have hf3 : t3.filter (fun x => decide (entryKey x = rawKey e)) = [] := by
      rw [List.filter_eq_nil_iff]
      intro x hx
      simp only [decide_eq_true_eq]
      intro hkx
      exact (hfresh3 x hx).1 (by rw [hkx]; exact List.mem_cons_self _ _)
    rw [hf1, hf3]
    simp [entryKey_toSec]

theorem c10_first_point_wins_witness :
    ((mergeEngine [] [((0:Int), (1:ℚ)), ((1000:Int), (2:ℚ))] 7).1).filter
      (fun x => decide (entryKey x = rawKey ((0:Int), (1:ℚ)))) =
      [toSec ((0:Int), (1:ℚ))] := by
  obtain ⟨t, h1, h2, h3⟩ := c10_first_point_wins [] [] [((1000:Int), (2:ℚ))]
    ((0:Int), (1:ℚ)) 7 (by decide) (by decide) (by decide)
  simp only [List.nil_append] at h1
  rw [h1]
  exact h3
